import Mathlib

/-!
Verification of the dynamic trade-economy core of `src/economy.c` (naev).

The C code is shallowly embedded over `ℚ` (the C `double`s are modelled as
exact rationals) and `ℤ` (C `int`/`credits_t`/`ntime_t`).  External
transcendental library calls (`sin`, `tanh`) and external subsystems
(`ntime_convertSTU`, `faction_name`, the faction standing predicates and the
CSparse QR solve) are passed in as explicit function parameters, so every
definition stays computable and every concrete claim can be evaluated.
-/

namespace Econ

/-! ## Economy nodal-analysis parameters (economy.c lines 48-52) -/

/-- Base resistance value for any system (`ECON_BASE_RES`). -/
def ECON_BASE_RES : ℚ := 30

/-- Additional resistance for the self node (`ECON_SELF_RES`). -/
def ECON_SELF_RES : ℚ := 3

/-- Modifier on Base for faction standings (`ECON_FACTION_MOD`). -/
def ECON_FACTION_MOD : ℚ := 1/10

/-! ## Machine-arithmetic helpers -/

/-- C cast of a floating value to an integer type (`(credits_t)(x)`):
truncation toward zero. -/
def ctrunc (x : ℚ) : ℤ :=
  if 0 ≤ x then ⌊x⌋ else -⌊-x⌋

/-- C `size_t` subtraction (64-bit unsigned wrap-around), used for the
`strlen(..) - strlen(..) - 19` computation in `economy_calcPrice`. -/
def sizeSub (a b : ℕ) : ℕ :=
  (a % 2 ^ 64 + 2 ^ 64 - b % 2 ^ 64) % 2 ^ 64

/-! ## Commodity catalog (struct `Commodity`, `CommodityModifier`) -/

/-- One node of a `CommodityModifier` linked list: a name key and a
multiplicative value. -/
structure CommodityModifier where
  name : String
  value : ℚ
deriving DecidableEq

/-- The fields of struct `Commodity` that the economy core reads.  `gfx`
imagery and description are irrelevant to the claims and omitted. -/
structure Commodity where
  name : String
  price : ℚ
  period : ℚ
  population_modifier : ℚ
  planet_modifier : List CommodityModifier
  faction_modifier : List CommodityModifier
  lastPurchasePrice : ℤ
deriving DecidableEq

/-- First-match lookup in a `CommodityModifier` chain with default `1.0`:
the C pattern `scale = 1.; while (cm) { if (!strcmp(key, cm->name)) { scale
= cm->value; break; } cm = cm->next; }`. -/
def modFirst (l : List CommodityModifier) (key : String) : ℚ :=
  match l with
  | [] => 1
  | m :: rest => if m.name = key then m.value else modFirst rest key

/-- `commodity_get` (economy.c lines 158-167): linear scan of the commodity
stack for an exact name match; warns (second component) and returns `NULL`
when no commodity matches. -/
def commodity_get (stack : List Commodity) (name : String) :
    Option Commodity × List String :=
  match stack with
  | [] => (none, ["Commodity not found in stack"])
  | c :: rest => if c.name = name then (some c, []) else commodity_get rest name

/-- `commodity_getW` (economy.c lines 176-183): same scan as `commodity_get`
but without the warning. -/
def commodity_getW (stack : List Commodity) (name : String) : Option Commodity :=
  match stack with
  | [] => none
  | c :: rest => if c.name = name then some c else commodity_getW rest name

/-! ## Price Field (struct `CommodityPrice`) -/

/-- Struct `CommodityPrice`: the per-(planet, commodity) price parameters and
observation accumulators.  `sum`/`sum2` are C doubles, `cnt` an `int`,
`updateTime` an `ntime_t`. -/
structure CommodityPrice where
  price : ℚ
  planetVariation : ℚ
  sysVariation : ℚ
  planetPeriod : ℚ
  sysPeriod : ℚ
  sum : ℚ
  sum2 : ℚ
  cnt : ℤ
  updateTime : ℤ
deriving DecidableEq

/-- The per-field effect of `economy_clearKnown` (economy.c lines 1462-1468):
zero the observation accumulators, keep the price parameters. -/
def clearCP (cp : CommodityPrice) : CommodityPrice :=
  { cp with cnt := 0, sum := 0, sum2 := 0, updateTime := 0 }

/-- `economy_clearKnown` restricted to the planet stack (economy.c lines
1452-1474): zero every field's accumulators.  (The function also zeroes each
commodity's `lastPurchasePrice`; that part of the state is not touched by any
claim and is not modelled here.) -/
def planetClear (cps : List CommodityPrice) : List CommodityPrice :=
  cps.map clearCP

/-- The body of the loop of `economy_averageSeenPrices` (economy.c lines
1413-1424) for one field: if the field's last-recorded time is earlier than
the current time `t`, record the current price `price` (a `credits_t`, hence
an integer) into the accumulators and stamp `t`; otherwise do nothing. -/
def seenStep (t : ℤ) (price : ℤ) (cp : CommodityPrice) : CommodityPrice :=
  if cp.updateTime < t then
    { cp with
      updateTime := t
      cnt := cp.cnt + 1
      sum := cp.sum + (price : ℚ)
      sum2 := cp.sum2 + ((price * price : ℤ) : ℚ) }
  else cp

/-- `economy_averageSeenPrices` (economy.c lines 1406-1425) over a planet's
field list.  The call `economy_getPrice(c, NULL, p)` only reads price
parameters that this loop never writes, so its result is supplied as the
oracle `priceFn i` (price of the `i`-th commodity of the planet at the fixed
current time). -/
def economy_averageSeenPrices (priceFn : ℕ → ℤ) (t : ℤ) (i : ℕ) :
    List CommodityPrice → List CommodityPrice
  | [] => []
  | cp :: rest => seenStep t (priceFn i) cp :: economy_averageSeenPrices priceFn t (i + 1) rest

/-! ## Planets (the fields of struct `Planet` read by the economy core) -/

/-- The economy-side state of a planet: its name, the names of the
commodities it offers (`p->commodities[i]->name`) and the parallel array of
Price Fields (`p->commodityPrice[i]`). -/
structure PlanetEcon where
  name : String
  commodities : List String
  commodityPrice : List CommodityPrice
deriving DecidableEq

/-- The C search pattern `for (i=0; i<p->ncommodities; i++) if
(!strcmp(p->commodities[i]->name, com->name)) break;` followed by
`&p->commodityPrice[i]`: first name match over the parallel arrays. -/
def planetFindCP (name : String) : List String → List CommodityPrice → Option CommodityPrice
  | nm :: nms, cp :: cps => if nm = name then some cp else planetFindCP name nms cps
  | _, _ => none

/-- `economy_getPriceAtTime` (economy.c lines 651-694).
Parameters standing for external collaborators: `sinQ` for libm `sin`,
`piQ` for `M_PI`, `convertSTU` for `ntime_convertSTU`, `NT_STP_STU` for the
fixed divisor converting STU to standard time periods.  `stack` is the
commodity stack, `econ_comm` the indices of priced commodities, `k` the
stack index of the queried commodity (the C code computes it as
`com - commodity_stack`; the `none` guard cannot fire in C).  The two WARN
branches return price 0. -/
def economy_getPriceAtTime (sinQ : ℚ → ℚ) (piQ : ℚ)
    (convertSTU : ℤ → ℚ) (NT_STP_STU : ℚ)
    (stack : List Commodity) (econ_comm : List ℕ)
    (p : PlanetEcon) (k : ℕ) (tme : ℤ) : ℤ :=
  let t : ℚ := convertSTU tme / NT_STP_STU
  match stack.get? k with
  | none => 0
  | some com =>
    if k ∈ econ_comm then
      match planetFindCP com.name p.commodities p.commodityPrice with
      | none => 0
      | some cp =>
        let price := cp.price + cp.sysVariation * sinQ (2 * piQ * t / cp.sysPeriod)
          + cp.planetVariation * sinQ (2 * piQ * t / cp.planetPeriod)
        ctrunc (price + 1/2)
    else 0

/-- Result triple of `economy_getAveragePlanetPrice`: the `int` return code
(`0` on a normal return, `-1` when the commodity is unknown or absent from
the planet), the rounded mean written through `*mean`, and the radicand of
the standard deviation written through `*std` (the C code returns
`sqrt(stdSq)`; `sqrt 0 = 0`, so "std = 0" is exactly "stdSq = 0"). -/
structure AvgResult where
  ret : ℤ
  mean : ℤ
  stdSq : ℚ
deriving DecidableEq

/-- `economy_getAveragePlanetPrice` (economy.c lines 703-742). -/
def economy_getAveragePlanetPrice (stack : List Commodity) (econ_comm : List ℕ)
    (p : PlanetEcon) (k : ℕ) : AvgResult :=
  match stack.get? k with
  | none => ⟨-1, 0, 0⟩
  | some com =>
    if k ∈ econ_comm then
      match planetFindCP com.name p.commodities p.commodityPrice with
      | none => ⟨-1, 0, 0⟩
      | some cp =>
        if 0 < cp.cnt then
          ⟨0, ctrunc (cp.sum / (cp.cnt : ℚ) + 1/2),
            cp.sum2 / (cp.cnt : ℚ) - cp.sum * cp.sum / ((cp.cnt : ℚ) * (cp.cnt : ℚ))⟩
        else ⟨0, 0, 0⟩
    else ⟨-1, 0, 0⟩

/-! ## Price Initializer, Pass 1 (`economy_calcPrice`) and Pass 4
(`economy_calcUpdatedCommodityPrice`) -/

/-- The planet attributes read by `economy_calcPrice`.  `popFactor` stands
for the external computation `tanh((log(population) - log(1e8)) / 2)` (used
only when `population > 0`; its value lies in `(-1, 1)`), and `factionName`
for the external `faction_name(planet->faction)`. -/
structure PlanetAttr where
  pclass : String
  population : ℕ
  popFactor : ℚ
  factionName : String
  presenceRange : ℚ
  gfxExteriorLen : ℕ
deriving DecidableEq

/-- `economy_calcPrice` (economy.c lines 1129-1195): Pass 1 of the
initializer, deriving a Price Field from planet and commodity attributes.
`gfxPathLen` is `strlen(PLANET_GFX_EXTERIOR_PATH)`.  The local variable
`period` computed from `gfx_spaceName` at line 1154 is dead (never read) and
is omitted.  Note that the faction-modifier step at lines 1177-1186 walks
`commodity->planet_modifier`, not `commodity->faction_modifier`. -/
def economy_calcPrice (gfxPathLen : ℕ) (planet : PlanetAttr) (commodity : Commodity)
    (cp0 : CommodityPrice) : CommodityPrice :=
  let scaleClass := modFirst commodity.planet_modifier planet.pclass
  let price1 := cp0.price * scaleClass
  let planetPeriod1 := commodity.period + 100
  let scaleExt : ℚ :=
    1 + (sizeSub (sizeSub planet.gfxExteriorLen gfxPathLen) 19 : ℚ) / 100
  let planetPeriod2 := planetPeriod1 * scaleExt
  let factor : ℚ := if 0 < planet.population then planet.popFactor else -1
  let price2 := price1 * (1 + factor * commodity.population_modifier)
  let planetVariation1 := (1/2 : ℚ) * (1/2 - factor * (1/4))
  let planetPeriod3 := planetPeriod2 * (1 + factor * (1/2))
  let scaleFaction := modFirst commodity.planet_modifier planet.factionName
  let price3 := price2 * scaleFaction
  let price4 := price3 * (1 - planet.presenceRange / 30)
  let planetPeriod4 := planetPeriod3 * (1 / (1 - planet.presenceRange / 30))
  { cp0 with
    price := price4
    planetVariation := planetVariation1
    sysVariation := 0
    sum := 0
    sum2 := 0
    cnt := 0
    updateTime := 0
    planetPeriod := planetPeriod4 }

/-- The per-field body of the final loop of
`economy_calcUpdatedCommodityPrice` (economy.c lines 1326-1339): blend the
field's price with the system average `avPrice`, rescale the planet
amplitude against the averaged amplitude `avPlanetVariation`, and convert
both amplitudes to absolute units by multiplying with the final price. -/
def calcUpdatedEntry (avPrice avPlanetVariation : ℚ) (cp : CommodityPrice) :
    CommodityPrice :=
  let price1 := (1/4) * cp.price + (3/4) * avPrice
  let pv1 := (1/10) * ((1/2) * avPlanetVariation + (1/2) * cp.planetVariation)
  { cp with
    price := price1
    planetVariation := pv1 * price1
    sysVariation := cp.sysVariation * price1 }

/-! ## Network Model and admittance matrix (`econ_calcJumpR`,
`econ_createGMatrix`) -/

/-- The fields of struct `StarSystem` read by the network model.  `jumps`
is the list of jump-target system ids (`sys->jumps[j].target->id`). -/
structure StarSys where
  nebu_density : ℚ
  nebu_volatility : ℚ
  faction : ℤ
  jumps : List ℕ
deriving DecidableEq

/-- `econ_calcJumpR` (economy.c lines 811-833).  `areEnemies` and
`areAllies` stand for the external faction-standing predicates. -/
def econ_calcJumpR (areEnemies areAllies : ℤ → ℤ → Bool) (A B : StarSys) : ℚ :=
  let R := ECON_BASE_RES
    + (A.nebu_density + B.nebu_density) / 1000
    + (A.nebu_volatility + B.nebu_volatility) / 100
  if A.faction ≠ -1 ∧ B.faction ≠ -1 then
    if areEnemies A.faction B.faction then R + ECON_FACTION_MOD * ECON_BASE_RES
    else if areAllies A.faction B.faction then R - ECON_FACTION_MOD * ECON_BASE_RES
    else R
  else R

/-- The inner loop of `econ_createGMatrix` (economy.c lines 910-924): for
each jump of system `i`, two symmetric triplet entries `(i, t, -1/R)` and
`(t, i, -1/R)` are inserted.  Jump targets are resolved in the system stack;
an out-of-range target (impossible in C, where jumps hold live pointers)
contributes nothing. -/
def jumpEntries (E A : ℤ → ℤ → Bool) (stack : List StarSys) (i : ℕ) (sys : StarSys) :
    List ℕ → List (ℕ × ℕ × ℚ)
  | [] => []
  | t :: ts =>
    (match stack.get? t with
     | some tgt =>
       let c := 1 / econ_calcJumpR E A sys tgt
       [(i, t, -c), (t, i, -c)]
     | none => []) ++ jumpEntries E A stack i sys ts

/-- The accumulator `Rsum` of `econ_createGMatrix`: the sum of the inverted
resistances `1/R` over a system's jumps. -/
def condSum (E A : ℤ → ℤ → Bool) (stack : List StarSys) (sys : StarSys) :
    List ℕ → ℚ
  | [] => 0
  | t :: ts =>
    (match stack.get? t with
     | some tgt => 1 / econ_calcJumpR E A sys tgt
     | none => 0) + condSum E A stack sys ts

/-- The triplet entries produced by `econ_createGMatrix` for one system
`sys` of index `i`: its jump entries followed by its diagonal entry
`(i, i, Rsum + 1/ECON_SELF_RES)`. -/
def sysEntries (E A : ℤ → ℤ → Bool) (stack : List StarSys) (i : ℕ) (sys : StarSys) :
    List (ℕ × ℕ × ℚ) :=
  jumpEntries E A stack i sys sys.jumps
    ++ [(i, i, condSum E A stack sys sys.jumps + 1 / ECON_SELF_RES)]

/-- The full triplet list of `econ_createGMatrix` (economy.c lines 891-942),
iterating over the system stack with running index `i`. -/
def econ_createGMatrix (E A : ℤ → ℤ → Bool) (stack : List StarSys) (i : ℕ) :
    List StarSys → List (ℕ × ℕ × ℚ)
  | [] => []
  | sys :: rest => sysEntries E A stack i sys ++ econ_createGMatrix E A stack (i + 1) rest

/-- Value of a triplet matrix at coordinate `(r, c)`: the sum of all triplet
entries carrying that coordinate.  `cs_entry` accumulates duplicate triplet
entries, and a CSC matrix with duplicate entries represents their sum, so
this is the matrix the compressed `econ_G` denotes. -/
def tripSum (r c : ℕ) : List (ℕ × ℕ × ℚ) → ℚ
  | [] => 0
  | e :: rest => (if e.1 = r ∧ e.2.1 = c then e.2.2 else 0) + tripSum r c rest

/-- Entry `(r, c)` of the admittance matrix `econ_G` built by
`econ_createGMatrix` for the given system stack. -/
def econ_G (E A : ℤ → ℤ → Bool) (stack : List StarSys) (r c : ℕ) : ℚ :=
  tripSum r c (econ_createGMatrix E A stack 0 stack)

/-! ## Equilibrium solver tick (`economy_update`) -/

/-- The per-system solver state: the per-good potential vector
`sys->prices`. -/
structure EconSysState where
  prices : List ℚ
deriving DecidableEq

/-- The global economy state touched by `economy_update`:
the `econ_initialized` flag and the system stack's potential vectors. -/
structure EconState where
  initialized : Bool
  systems : List EconSysState
deriving DecidableEq

/-- `econ_calcSysI` (economy.c lines 841-883): the production intensity of a
system node.  The entire body is compiled out (`#if 0`); the function
returns `0.`. -/
def econ_calcSysI (dt : ℕ) (sys : EconSysState) (price : ℕ) : ℚ := 0

/-- The write-back loop `for (i...) systems_stack[i].prices[j] = X[i]*scale +
offset` of `economy_update`, walking the system stack with running index
`i`. -/
def applyPrices (X : List ℚ) (scale offset : ℚ) (j i : ℕ) :
    List EconSysState → List EconSysState
  | [] => []
  | s :: rest =>
    { prices := s.prices.set j (X.getD i 0 * scale + offset) }
      :: applyPrices X scale offset j (i + 1) rest

/-- One iteration (one priced good `j`) of the main loop of
`economy_update` (economy.c lines 1044-1087): build the intensity vector
`X`, solve `econ_G · X' = X` (the external `cs_qrsol`, modelled by the
parameter `qrsol` returning its success flag and the vector it leaves in
`X`), warn on failure, then unconditionally write `X'[i]*scale + offset`
(with `scale = 1`, `offset = 1`) into every system's potential slot `j`. -/
def econ_updateGood (qrsol : List ℚ → Bool × List ℚ) (dt : ℕ)
    (sts : List EconSysState) (ws : List String) (j : ℕ) :
    List EconSysState × List String :=
  let X := sts.map (fun s => econ_calcSysI dt s j)
  let r := qrsol X
  let ws1 := if r.1 then ws else ws ++ ["Failed to solve the Economy System."]
  let scale : ℚ := 1
  let offset : ℚ := 1
  (applyPrices r.2 scale offset j 0 sts, ws1)

/-- `economy_update` (economy.c lines 1024-1094): a no-op when the economy
is uninitialized, else one `econ_updateGood` pass per priced good.  The
returned list collects the WARN messages raised. -/
def economy_update (qrsol : List ℚ → Bool × List ℚ) (dt : ℕ) (nprices : ℕ)
    (st : EconState) : EconState × List String :=
  if st.initialized then
    let r := (List.range nprices).foldl
      (fun acc j => econ_updateGood qrsol dt acc.1 acc.2 j) (st.systems, [])
    ({ st with systems := r.1 }, r.2)
  else (st, [])

/-! ## Persistence (`economy_sysSave`, `economy_sysLoad`) -/

/-- One `<commodity ...>` element written by `economy_sysSave`: the field's
accumulators keyed by the commodity name. -/
structure ComSave where
  name : String
  sum : ℚ
  sum2 : ℚ
  cnt : ℤ
  time : ℤ
deriving DecidableEq

/-- One `<planet ...>` element written by `economy_sysSave`: the planet name
and its saved commodity entries.  (The enclosing `<system>` grouping is
dropped from the model: `economy_sysLoad` looks planets up globally by name
and never uses the system element it parses.) -/
structure PlanetSave where
  name : String
  coms : List ComSave
deriving DecidableEq

/-- The commodity loop of `economy_sysSave` (economy.c lines 1591-1612) over
a planet's parallel name/field arrays: emit an entry exactly for the fields
with `cnt > 0`. -/
def saveCom : List String → List CommodityPrice → List ComSave
  | nm :: nms, cp :: cps =>
    (if 0 < cp.cnt then [⟨nm, cp.sum, cp.sum2, cp.cnt, cp.updateTime⟩] else [])
      ++ saveCom nms cps
  | _, _ => []

/-- `economy_sysSave` (economy.c lines 1569-1621) restricted to the
observation state: one `PlanetSave` per planet that has at least one seen
commodity (the `donePlanet` flag).  The `lastPurchase` elements concern
`Commodity.lastPurchasePrice`, which no claim touches, and are not
modelled. -/
def economy_sysSave : List PlanetEcon → List PlanetSave
  | [] => []
  | p :: w =>
    let es := saveCom p.commodities p.commodityPrice
    (if es.isEmpty then [] else [⟨p.name, es⟩]) ++ economy_sysSave w

/-- The attribute writes of the `<commodity>` branch of `economy_sysLoad`
(economy.c lines 1521-1542): overwrite the field's four accumulators with
the saved values. -/
def restoreCP (e : ComSave) (cp : CommodityPrice) : CommodityPrice :=
  { cp with
    sum := e.sum
    sum2 := e.sum2
    cnt := e.cnt
    updateTime := e.time }

/-- The commodity-name search of `economy_sysLoad` (economy.c lines
1513-1519) applied to a planet's parallel arrays: restore the first field
whose commodity name matches the entry, leave everything else unchanged (an
entry naming no commodity of the planet is skipped, `cp == NULL`). -/
def applyComLists (e : ComSave) : List String → List CommodityPrice → List CommodityPrice
  | nm :: nms, cp :: cps =>
    if nm = e.name then restoreCP e cp :: cps
    else cp :: applyComLists e nms cps
  | _, cps => cps

/-- The `<planet>` branch of `economy_sysLoad`: `planet_get` resolves the
planet name to the first planet of that name, and every `<commodity>` child
is applied to it in order.  An unknown planet name leaves the world
unchanged. -/
def applyPlanetSave (ps : PlanetSave) : List PlanetEcon → List PlanetEcon
  | [] => []
  | p :: w =>
    if p.name = ps.name then
      { p with commodityPrice :=
          ps.coms.foldl (fun cps e => applyComLists e p.commodities cps) p.commodityPrice }
        :: w
    else p :: applyPlanetSave ps w

/-- `economy_clearKnown` (economy.c lines 1452-1474) over the planet stack. -/
def economy_clearKnown (w : List PlanetEcon) : List PlanetEcon :=
  w.map fun p => { p with commodityPrice := planetClear p.commodityPrice }

/-- `economy_sysLoad` (economy.c lines 1482-1559): reset all observation
state, then apply every saved planet element in order. -/
def economy_sysLoad (file : List PlanetSave) (w : List PlanetEcon) : List PlanetEcon :=
  file.foldl (fun acc ps => applyPlanetSave ps acc) (economy_clearKnown w)

/-- The per-field result of a save/clear/load round-trip: fields that had
been observed survive unchanged, the rest come back cleared. -/
def restoreOrClear (cp : CommodityPrice) : CommodityPrice :=
  if 0 < cp.cnt then cp else clearCP cp

/-! ## Concrete universes used to evaluate the model -/

/-- A complete graph of 11 systems with default attributes: no nebula, no
faction, every system jumping to every other.  Every jump resistance is the
plain `ECON_BASE_RES = 30`. -/
def stack11 : List StarSys :=
  [⟨0, 0, -1, [1, 2, 3, 4, 5, 6, 7, 8, 9, 10]⟩,
   ⟨0, 0, -1, [0, 2, 3, 4, 5, 6, 7, 8, 9, 10]⟩,
   ⟨0, 0, -1, [0, 1, 3, 4, 5, 6, 7, 8, 9, 10]⟩,
   ⟨0, 0, -1, [0, 1, 2, 4, 5, 6, 7, 8, 9, 10]⟩,
   ⟨0, 0, -1, [0, 1, 2, 3, 5, 6, 7, 8, 9, 10]⟩,
   ⟨0, 0, -1, [0, 1, 2, 3, 4, 6, 7, 8, 9, 10]⟩,
   ⟨0, 0, -1, [0, 1, 2, 3, 4, 5, 7, 8, 9, 10]⟩,
   ⟨0, 0, -1, [0, 1, 2, 3, 4, 5, 6, 8, 9, 10]⟩,
   ⟨0, 0, -1, [0, 1, 2, 3, 4, 5, 6, 7, 9, 10]⟩,
   ⟨0, 0, -1, [0, 1, 2, 3, 4, 5, 6, 7, 8, 10]⟩,
   ⟨0, 0, -1, [0, 1, 2, 3, 4, 5, 6, 7, 8, 9]⟩]

/-- The sum of the values of the triplet entries lying in row `r`. -/
def rowSum (r : ℕ) : List (ℕ × ℕ × ℚ) → ℚ
  | [] => 0
  | e :: rest => (if e.1 = r then e.2.2 else 0) + rowSum r rest

/-- The conductance mass a system `sys` sends INTO row `r` through its jump
list: the term of `condSum` restricted to jump targets equal to `r` (each
such jump contributes a `(r, ·)` triplet entry). -/
def hitSum (E A : ℤ → ℤ → Bool) (stack : List StarSys) (sys : StarSys) (r : ℕ) :
    List ℕ → ℚ
  | [] => 0
  | t :: ts =>
    (if t = r then
      (match stack.get? t with
       | some tgt => 1 / econ_calcJumpR E A sys tgt
       | none => 0)
     else 0) + hitSum E A stack sys r ts

/-- The total conductance mass all systems of a stack send into row `r`. -/
def listHit (E A : ℤ → ℤ → Bool) (stack : List StarSys) (r : ℕ) :
    List StarSys → ℚ
  | [] => 0
  | sys :: rest => hitSum E A stack sys r sys.jumps + listHit E A stack r rest

/-- The admittance matrix `econ_createGMatrix` builds for `stack11`, as an
11 × 11 matrix. -/
def G11 : Matrix (Fin 11) (Fin 11) ℚ :=
  Matrix.of fun r c => econ_G (fun _ _ => false) (fun _ _ => false) stack11 r.1 c.1

/-! # Theorems -/

/-! ## Shared helper lemmas -/

/-- Strict positivity of a jump resistance for non-negative environmental
scalars: `econ_calcJumpR` lies between `27` and everything above. -/
theorem econ_calcJumpR_pos (E A : ℤ → ℤ → Bool) (sA sB : StarSys)
    (hdA : 0 ≤ sA.nebu_density) (hdB : 0 ≤ sB.nebu_density)
    (hvA : 0 ≤ sA.nebu_volatility) (hvB : 0 ≤ sB.nebu_volatility) :
    0 < econ_calcJumpR E A sA sB := by
  unfold econ_calcJumpR ECON_BASE_RES ECON_FACTION_MOD
  have h1 : 0 ≤ (sA.nebu_density + sB.nebu_density) / 1000 := by positivity
  have h2 : 0 ≤ (sA.nebu_volatility + sB.nebu_volatility) / 100 := by positivity
  split_ifs <;> linarith

/-! ## C10: the two commodity lookups agree and return the first match -/

/-- Claim C10: for every name, `commodity_get` (warning variant) and
`commodity_getW` (warning-free variant) return the same commodity, namely
the first commodity of the stack whose name matches exactly, or none. -/
theorem C10_commodity_get_equiv (stack : List Commodity) (name : String) :
    (commodity_get stack name).1 = commodity_getW stack name ∧
    commodity_getW stack name = stack.find? (fun c => c.name == name) := by
  induction stack with
  | nil => simp [commodity_get, commodity_getW]
  | cons c rest ih =>
    by_cases h : c.name = name
    · simp [commodity_get, commodity_getW, List.find?, h]
    · have hb : (c.name == name) = false := by simp [h]
      simpa [commodity_get, commodity_getW, List.find?, h, hb] using ih

/-! ## C9: the jump resistance formula -/

/-- Claim C9: for non-negative environmental scalars the edge resistance is
strictly positive and equals the fixed base `ECON_BASE_RES` plus the summed
densities scaled by `1/1000` and the summed volatilities scaled by `1/100`,
raised by `ECON_FACTION_MOD · ECON_BASE_RES` for mutually hostile factions,
lowered by the same amount for mutually allied factions, and unchanged when
either side is unaffiliated (faction `-1`) or the standing is neutral. -/
theorem C9_calcJumpR (E A : ℤ → ℤ → Bool) (sA sB : StarSys)
    (hdA : 0 ≤ sA.nebu_density) (hdB : 0 ≤ sB.nebu_density)
    (hvA : 0 ≤ sA.nebu_volatility) (hvB : 0 ≤ sB.nebu_volatility) :
    0 < econ_calcJumpR E A sA sB ∧
    ((sA.faction = -1 ∨ sB.faction = -1) →
      econ_calcJumpR E A sA sB = ECON_BASE_RES
        + (sA.nebu_density + sB.nebu_density) / 1000
        + (sA.nebu_volatility + sB.nebu_volatility) / 100) ∧
    (sA.faction ≠ -1 → sB.faction ≠ -1 → E sA.faction sB.faction = true →
      econ_calcJumpR E A sA sB = ECON_BASE_RES
        + (sA.nebu_density + sB.nebu_density) / 1000
        + (sA.nebu_volatility + sB.nebu_volatility) / 100
        + ECON_FACTION_MOD * ECON_BASE_RES) ∧
    (sA.faction ≠ -1 → sB.faction ≠ -1 → E sA.faction sB.faction = false →
      A sA.faction sB.faction = true →
      econ_calcJumpR E A sA sB = ECON_BASE_RES
        + (sA.nebu_density + sB.nebu_density) / 1000
        + (sA.nebu_volatility + sB.nebu_volatility) / 100
        - ECON_FACTION_MOD * ECON_BASE_RES) ∧
    (sA.faction ≠ -1 → sB.faction ≠ -1 → E sA.faction sB.faction = false →
      A sA.faction sB.faction = false →
      econ_calcJumpR E A sA sB = ECON_BASE_RES
        + (sA.nebu_density + sB.nebu_density) / 1000
        + (sA.nebu_volatility + sB.nebu_volatility) / 100) := by
  refine ⟨econ_calcJumpR_pos E A sA sB hdA hdB hvA hvB, ?_, ?_, ?_, ?_⟩
  · rintro (h | h) <;> simp [econ_calcJumpR, h]
  · intro h1 h2 hE
    simp [econ_calcJumpR, h1, h2, hE]
  · intro h1 h2 hE hA
    simp [econ_calcJumpR, h1, h2, hE, hA]
  · intro h1 h2 hE hA
    simp [econ_calcJumpR, h1, h2, hE, hA]

/-- Witness for C9 at a concrete hostile pair of systems. -/
theorem C9_witness :
    0 < econ_calcJumpR (fun _ _ => true) (fun _ _ => false)
      ⟨100, 200, 1, []⟩ ⟨300, 400, 2, []⟩ ∧
    econ_calcJumpR (fun _ _ => true) (fun _ _ => false)
      ⟨100, 200, 1, []⟩ ⟨300, 400, 2, []⟩
      = ECON_BASE_RES + (100 + 300) / 1000 + (200 + 400) / 100
        + ECON_FACTION_MOD * ECON_BASE_RES := by
  have h := C9_calcJumpR (fun _ _ => true) (fun _ _ => false)
    ⟨100, 200, 1, []⟩ ⟨300, 400, 2, []⟩
    (by norm_num) (by norm_num) (by norm_num) (by norm_num)
  exact ⟨h.1, h.2.2.1 (by decide) (by decide) rfl⟩

/-! ## C7: recording observations is idempotent per instant -/

/-- Claim C7: recording is a no-op when the field's last-recorded time is
not earlier than the current time, and hence running
`economy_averageSeenPrices` twice at the same timestamp equals running it
once — the accumulators change at most once per instant. -/
theorem C7_averageSeenPrices_idem (priceFn : ℕ → ℤ) (t : ℤ) (cp : CommodityPrice)
    (v : ℤ) (hcp : ¬ cp.updateTime < t) (cps : List CommodityPrice) (i : ℕ) :
    seenStep t v cp = cp ∧
    economy_averageSeenPrices priceFn t i (economy_averageSeenPrices priceFn t i cps)
      = economy_averageSeenPrices priceFn t i cps := by
  have hstep : ∀ (w : ℤ) (c : CommodityPrice), seenStep t w (seenStep t w c) = seenStep t w c := by
    intro w c
    by_cases h : c.updateTime < t
    · simp [seenStep, h]
    · simp [seenStep, h]
  constructor
  · simp [seenStep, hcp]
  · induction cps generalizing i with
    | nil => rfl
    | cons c rest ih =>
      simp [economy_averageSeenPrices, hstep, ih]

/-- Witness for C7 at a concrete field list and timestamp. -/
theorem C7_witness :
    seenStep 3 9 ⟨100, 1, 0, 300, 1000, 0, 0, 0, 5⟩ = ⟨100, 1, 0, 300, 1000, 0, 0, 0, 5⟩ ∧
    economy_averageSeenPrices (fun _ => 7) 3 0
        (economy_averageSeenPrices (fun _ => 7) 3 0
          [⟨100, 1, 0, 300, 1000, 0, 0, 0, 1⟩, ⟨50, 1, 0, 300, 1000, 0, 0, 0, 4⟩])
      = economy_averageSeenPrices (fun _ => 7) 3 0
          [⟨100, 1, 0, 300, 1000, 0, 0, 0, 1⟩, ⟨50, 1, 0, 300, 1000, 0, 0, 0, 4⟩] :=
  C7_averageSeenPrices_idem (fun _ => 7) 3 ⟨100, 1, 0, 300, 1000, 0, 0, 0, 5⟩ 9
    (by decide) [⟨100, 1, 0, 300, 1000, 0, 0, 0, 1⟩, ⟨50, 1, 0, 300, 1000, 0, 0, 0, 4⟩] 0

/-! ## C2: the faction-modifier lookup of Pass 1 -/

/-- Claim C2 (code bug): `economy_calcPrice` is supposed to scale the price
by the entry of the good's by-faction modifier table keyed by the planet's
faction name, but the code walks `commodity->planet_modifier` instead of
`commodity->faction_modifier`.  At a commodity whose faction table maps
"Empire" to `2` (and whose planet-class table is empty), a planet of
faction "Empire" keeps price `100` instead of the claimed `100 * 2`. -/
theorem C2_faction_lookup_bug :
    (economy_calcPrice 20 ⟨"A", 0, 0, "Empire", 0, 39⟩
        ⟨"Gold", 100, 200, 0, [], [⟨"Empire", 2⟩], 0⟩
        ⟨100, 1/2, 0, 0, 0, 0, 0, 0, 0⟩).price = 100 ∧
    modFirst [⟨"Empire", (2 : ℚ)⟩] "Empire" = 2 ∧
    (100 : ℚ) ≠ 100 * 2 := by
  refine ⟨?_, by norm_num [modFirst], by norm_num⟩
  norm_num [economy_calcPrice, modFirst, sizeSub]

/-! ## C3: no clamp on the presence-range divisor -/

/-- Claim C3 counterexample: nothing clamps `1 - presenceRange/30`.  At
presence range `60` the divisor is negative and Pass 1 emits a negative
planet period, refuting both the claimed clamp and the claimed strict
positivity of every produced period. -/
theorem C3_counterexample :
    (economy_calcPrice 20 ⟨"A", 0, 0, "F", 60, 39⟩
        ⟨"Gold", 100, 200, 0, [], [], 0⟩
        ⟨100, 1/2, 0, 0, 0, 0, 0, 0, 0⟩).planetPeriod < 0 ∧
    (1 - (60 : ℚ) / 30) < 0 := by
  refine ⟨?_, by norm_num⟩
  norm_num [economy_calcPrice, modFirst, sizeSub]

/-- Claim C3 (amended): there is no clamp, but whenever the presence range
stays below `30` (observed range is 0–5) and the inputs are well-formed
(population factor in `[-1, 1]` as `tanh` guarantees, non-negative commodity
base period), the Pass-1 divisor `1 - presenceRange/30` is strictly
positive, the produced planet period strictly positive, the planet amplitude
strictly positive and the system amplitude zero; and the Pass-4 rescaling
keeps both amplitudes non-negative (for non-negative averaged inputs) and
leaves both periods unchanged. -/
theorem C3_amended (gfxPathLen : ℕ) (planet : PlanetAttr) (commodity : Commodity)
    (cp0 : CommodityPrice) (avP avV : ℚ) (cp : CommodityPrice)
    (hpr : planet.presenceRange < 30)
    (hpf1 : -1 ≤ planet.popFactor) (hpf2 : planet.popFactor ≤ 1)
    (hperiod : 0 ≤ commodity.period)
    (havP : 0 ≤ avP) (havV : 0 ≤ avV)
    (hcpP : 0 ≤ cp.price) (hcpV : 0 ≤ cp.planetVariation) (hcpS : 0 ≤ cp.sysVariation) :
    0 < 1 - planet.presenceRange / 30 ∧
    0 < (economy_calcPrice gfxPathLen planet commodity cp0).planetPeriod ∧
    0 < (economy_calcPrice gfxPathLen planet commodity cp0).planetVariation ∧
    (economy_calcPrice gfxPathLen planet commodity cp0).sysVariation = 0 ∧
    0 ≤ (calcUpdatedEntry avP avV cp).planetVariation ∧
    0 ≤ (calcUpdatedEntry avP avV cp).sysVariation ∧
    (calcUpdatedEntry avP avV cp).planetPeriod = cp.planetPeriod ∧
    (calcUpdatedEntry avP avV cp).sysPeriod = cp.sysPeriod := by
  have hdiv : 0 < 1 - planet.presenceRange / 30 := by linarith
  have hfac : -1 ≤ (if 0 < planet.population then planet.popFactor else -1) ∧
      (if 0 < planet.population then planet.popFactor else -1) ≤ 1 := by
    split_ifs <;> constructor <;> linarith
  have hext : (0 : ℚ) <
      1 + (sizeSub (sizeSub planet.gfxExteriorLen gfxPathLen) 19 : ℚ) / 100 := by
    have h0 : (0 : ℚ) ≤ (sizeSub (sizeSub planet.gfxExteriorLen gfxPathLen) 19 : ℚ) :=
      Nat.cast_nonneg _
    linarith
  have hpassePeriod :
      0 < (economy_calcPrice gfxPathLen planet commodity cp0).planetPeriod := by
    simp only [economy_calcPrice]
    have h1 : (0 : ℚ) < commodity.period + 100 := by linarith
    have h2 : (0 : ℚ) < 1 + (if 0 < planet.population then planet.popFactor else -1) * (1/2) := by
      rcases hfac with ⟨ha, hb⟩
      nlinarith
    have h3 : (0 : ℚ) < 1 / (1 - planet.presenceRange / 30) :=
      one_div_pos.mpr hdiv
    exact mul_pos (mul_pos (mul_pos h1 hext) h2) h3
  have hpasseVar :
      0 < (economy_calcPrice gfxPathLen planet commodity cp0).planetVariation := by
    simp only [economy_calcPrice]
    rcases hfac with ⟨ha, hb⟩
    nlinarith
  have hprice1 : (0 : ℚ) ≤ (1/4) * cp.price + (3/4) * avP := by linarith
  have hpv1 : (0 : ℚ) ≤ (1/10) * ((1/2) * avV + (1/2) * cp.planetVariation) := by linarith
  refine ⟨hdiv, hpassePeriod, hpasseVar, rfl, ?_, ?_, rfl, rfl⟩
  · simpa [calcUpdatedEntry] using mul_nonneg hpv1 hprice1
  · simpa [calcUpdatedEntry] using mul_nonneg hcpS hprice1

/-- Witness for C3 at a concrete well-formed planet/commodity pair. -/
theorem C3_witness :
    0 < 1 - (5 : ℚ) / 30 ∧
    0 < (economy_calcPrice 20 ⟨"A", 500000, 1/3, "F", 5, 39⟩
        ⟨"Gold", 100, 200, 1/10, [], [], 0⟩ ⟨100, 1/2, 0, 0, 0, 0, 0, 0, 0⟩).planetPeriod ∧
    0 < (economy_calcPrice 20 ⟨"A", 500000, 1/3, "F", 5, 39⟩
        ⟨"Gold", 100, 200, 1/10, [], [], 0⟩ ⟨100, 1/2, 0, 0, 0, 0, 0, 0, 0⟩).planetVariation ∧
    (economy_calcPrice 20 ⟨"A", 500000, 1/3, "F", 5, 39⟩
        ⟨"Gold", 100, 200, 1/10, [], [], 0⟩ ⟨100, 1/2, 0, 0, 0, 0, 0, 0, 0⟩).sysVariation = 0 ∧
    0 ≤ (calcUpdatedEntry 80 (2/5) ⟨100, 1/2, 1/5, 300, 1000, 0, 0, 0, 0⟩).planetVariation ∧
    0 ≤ (calcUpdatedEntry 80 (2/5) ⟨100, 1/2, 1/5, 300, 1000, 0, 0, 0, 0⟩).sysVariation ∧
    (calcUpdatedEntry 80 (2/5) ⟨100, 1/2, 1/5, 300, 1000, 0, 0, 0, 0⟩).planetPeriod
      = (⟨100, 1/2, 1/5, 300, 1000, 0, 0, 0, 0⟩ : CommodityPrice).planetPeriod ∧
    (calcUpdatedEntry 80 (2/5) ⟨100, 1/2, 1/5, 300, 1000, 0, 0, 0, 0⟩).sysPeriod
      = (⟨100, 1/2, 1/5, 300, 1000, 0, 0, 0, 0⟩ : CommodityPrice).sysPeriod :=
  C3_amended 20 ⟨"A", 500000, 1/3, "F", 5, 39⟩ ⟨"Gold", 100, 200, 1/10, [], [], 0⟩
    ⟨100, 1/2, 0, 0, 0, 0, 0, 0, 0⟩ 80 (2/5) ⟨100, 1/2, 1/5, 300, 1000, 0, 0, 0, 0⟩
    (by norm_num) (by norm_num) (by norm_num) (by norm_num) (by norm_num)
    (by norm_num) (by norm_num) (by norm_num) (by norm_num)

/-! ## C4: the per-asset average query -/

/-- Claim C4 counterexample: for a (planet, good) pair that carries a Price
Field with observation count zero, `economy_getAveragePlanetPrice` returns
mean 0 and std 0 but with return code `0` — the very code of a successful
observed query — not the distinct `-1` "not known" signal the function uses
when the pair carries no Price Field at all. -/
theorem C4_counterexample :
    economy_getAveragePlanetPrice [⟨"Food", 10, 200, 0, [], [], 0⟩] [0]
        ⟨"P", ["Food"], [⟨100, 1, 0, 300, 1000, 0, 0, 0, 0⟩]⟩ 0 = ⟨0, 0, 0⟩ ∧
    (economy_getAveragePlanetPrice [⟨"Food", 10, 200, 0, [], [], 0⟩] [0]
        ⟨"Q", [], []⟩ 0).ret = -1 ∧
    (0 : ℤ) ≠ -1 := by
  refine ⟨?_, ?_, by decide⟩
  · simp [economy_getAveragePlanetPrice, planetFindCP]
  · simp [economy_getAveragePlanetPrice, planetFindCP]

/-- Claim C4 (amended): for a pair carrying a Price Field, count zero yields
`(0, 0)` with the generic return code `0` (not a distinct "not observed"
code, which is `-1` and reserved for pairs with no Price Field); and after
exactly one recorded observation of a non-negative price `P` on a cleared
field, the query returns mean `P`, a zero standard-deviation radicand, and
code `0`. -/
theorem C4_amended (stack : List Commodity) (econ_comm : List ℕ)
    (p q : PlanetEcon) (k : ℕ) (com : Commodity) (cp cq : CommodityPrice)
    (t P : ℤ)
    (hcom : stack.get? k = some com) (hk : k ∈ econ_comm)
    (hfind : planetFindCP com.name p.commodities p.commodityPrice = some cp)
    (hcnt : cp.cnt = 0)
    (hqfind : planetFindCP com.name q.commodities q.commodityPrice
      = some (seenStep t P cq))
    (hq0 : cq.cnt = 0) (hqs : cq.sum = 0) (hqs2 : cq.sum2 = 0)
    (hqt : cq.updateTime < t) (hP : 0 ≤ P) :
    economy_getAveragePlanetPrice stack econ_comm p k = ⟨0, 0, 0⟩ ∧
    economy_getAveragePlanetPrice stack econ_comm q k = ⟨0, P, 0⟩ := by
  have hPQ : (0 : ℚ) ≤ (P : ℚ) := by exact_mod_cast hP
  constructor
  · rw [economy_getAveragePlanetPrice, hcom]
    simp only [hk, if_true, hfind, hcnt]
    norm_num
  · have hstep : seenStep t P cq =
        { cq with updateTime := t, cnt := 1, sum := (P : ℚ), sum2 := ((P * P : ℤ) : ℚ) } := by
      simp [seenStep, hqt, hq0, hqs, hqs2]
    rw [hstep] at hqfind
    have hmean : ctrunc ((P : ℚ) / ((1 : ℤ) : ℚ) + 1/2) = P := by
      have hnn : (0 : ℚ) ≤ (P : ℚ) / ((1 : ℤ) : ℚ) + 1/2 := by
        simp only [Int.cast_one, div_one]
        linarith
      rw [ctrunc, if_pos hnn]
      simp only [Int.cast_one, div_one]
      rw [Int.floor_int_add]
      norm_num
    rw [economy_getAveragePlanetPrice, hcom]
    simp only [hk, if_true, hqfind]
    norm_num
    simpa using hmean

/-- Witness for C4 at a concrete one-commodity planet pair. -/
theorem C4_witness :
    economy_getAveragePlanetPrice [⟨"Food", 10, 200, 0, [], [], 0⟩] [0]
        ⟨"P", ["Food"], [⟨100, 1, 0, 300, 1000, 0, 0, 0, 0⟩]⟩ 0 = ⟨0, 0, 0⟩ ∧
    economy_getAveragePlanetPrice [⟨"Food", 10, 200, 0, [], [], 0⟩] [0]
        ⟨"R", ["Food"], [seenStep 4 12 ⟨100, 1, 0, 300, 1000, 0, 0, 0, 0⟩]⟩ 0
      = ⟨0, 12, 0⟩ :=
  C4_amended [⟨"Food", 10, 200, 0, [], [], 0⟩] [0]
    ⟨"P", ["Food"], [⟨100, 1, 0, 300, 1000, 0, 0, 0, 0⟩]⟩
    ⟨"R", ["Food"], [seenStep 4 12 ⟨100, 1, 0, 300, 1000, 0, 0, 0, 0⟩]⟩ 0
    ⟨"Food", 10, 200, 0, [], [], 0⟩
    ⟨100, 1, 0, 300, 1000, 0, 0, 0, 0⟩ ⟨100, 1, 0, 300, 1000, 0, 0, 0, 0⟩ 4 12
    rfl (by decide) rfl rfl rfl rfl rfl rfl (by decide) (by decide)

/-! ## C5: the price evaluator -/

/-- Claim C5: for a priced good present on the planet, the price query
returns the half-up rounding of `base + sysAmplitude·sin(2π·t/sysPeriod) +
planetAmplitude·sin(2π·t/planetPeriod)`, where `t` is the timestamp
converted to standard time periods by the fixed divisor `NT_STP_STU` (the
rounding hypothesis `hpos` makes the C truncation of `price + 0.5` the
half-up rounding; a realistic field keeps the price positive).  The
embedding is a pure function, and the final conjunct records that a repeated
call with identical inputs returns the identical result. -/
theorem C5_getPriceAtTime (sinQ : ℚ → ℚ) (piQ : ℚ) (convertSTU : ℤ → ℚ)
    (NT_STP_STU : ℚ) (stack : List Commodity) (econ_comm : List ℕ)
    (p : PlanetEcon) (k : ℕ) (tme : ℤ) (com : Commodity) (cp : CommodityPrice)
    (hcom : stack.get? k = some com) (hk : k ∈ econ_comm)
    (hfind : planetFindCP com.name p.commodities p.commodityPrice = some cp)
    (hpos : 0 ≤ cp.price
      + cp.sysVariation * sinQ (2 * piQ * (convertSTU tme / NT_STP_STU) / cp.sysPeriod)
      + cp.planetVariation * sinQ (2 * piQ * (convertSTU tme / NT_STP_STU) / cp.planetPeriod)
      + 1/2) :
    economy_getPriceAtTime sinQ piQ convertSTU NT_STP_STU stack econ_comm p k tme
      = ⌊cp.price
          + cp.sysVariation * sinQ (2 * piQ * (convertSTU tme / NT_STP_STU) / cp.sysPeriod)
          + cp.planetVariation * sinQ (2 * piQ * (convertSTU tme / NT_STP_STU) / cp.planetPeriod)
          + 1/2⌋ ∧
    economy_getPriceAtTime sinQ piQ convertSTU NT_STP_STU stack econ_comm p k tme
      = economy_getPriceAtTime sinQ piQ convertSTU NT_STP_STU stack econ_comm p k tme := by
  refine ⟨?_, rfl⟩
  rw [economy_getPriceAtTime, hcom]
  simp only [hk, if_pos, hfind]
  rw [ctrunc, if_pos (by linarith)]

/-- Witness for C5: a field with zero amplitudes and base 100 evaluates to
100 whatever the oscillator does. -/
theorem C5_witness :
    economy_getPriceAtTime (fun _ => 0) 3 (fun z => (z : ℚ)) 1000
      [⟨"Food", 10, 200, 0, [], [], 0⟩] [0]
      ⟨"P", ["Food"], [⟨100, 0, 0, 300, 1000, 0, 0, 0, 0⟩]⟩ 0 5 = 100 := by
  have h := C5_getPriceAtTime (fun _ => 0) 3 (fun z => (z : ℚ)) 1000
    [⟨"Food", 10, 200, 0, [], [], 0⟩] [0]
    ⟨"P", ["Food"], [⟨100, 0, 0, 300, 1000, 0, 0, 0, 0⟩]⟩ 0 5
    ⟨"Food", 10, 200, 0, [], [], 0⟩ ⟨100, 0, 0, 300, 1000, 0, 0, 0, 0⟩
    rfl (by decide) rfl (by norm_num)
  rw [h.1]
  norm_num

/-! ## C1: solver failure during `economy_update` -/

/-- Reading a freshly set slot of a list. -/
theorem list_get?_set_self {α : Type} : ∀ (l : List α) (i : ℕ) (v : α),
    i < l.length → (l.set i v).get? i = some v := by
  intro l
  induction l with
  | nil => intro i v h; simp at h
  | cons a l ih =>
    intro i v h
    cases i with
    | zero => rfl
    | succ i => simpa using ih i v (by simpa using h)

/-- Reading an untouched slot of a list. -/
theorem list_get?_set_ne {α : Type} : ∀ (l : List α) (i j : ℕ) (v : α),
    i ≠ j → (l.set i v).get? j = l.get? j := by
  intro l
  induction l with
  | nil => intro i j v _; simp
  | cons a l ih =>
    intro i j v h
    cases i with
    | zero =>
      cases j with
      | zero => exact absurd rfl h
      | succ j => rfl
    | succ i =>
      cases j with
      | zero => rfl
      | succ j => simpa using ih i j v (by omega)

/-- The intensity vector of `economy_update` is the zero vector:
`econ_calcSysI` returns `0` for every system. -/
theorem map_calcSysI (dt g : ℕ) : ∀ sts : List EconSysState,
    sts.map (fun s => econ_calcSysI dt s g) = List.replicate sts.length 0 := by
  intro sts
  induction sts with
  | nil => rfl
  | cons s rest ih => simp [econ_calcSysI, List.replicate, ih]

/-- `applyPrices` preserves the number of systems. -/
theorem applyPrices_length (X : List ℚ) (sc off : ℚ) (g : ℕ) :
    ∀ (sts : List EconSysState) (k : ℕ),
      (applyPrices X sc off g k sts).length = sts.length := by
  intro sts
  induction sts with
  | nil => intro k; rfl
  | cons s rest ih => intro k; simpa [applyPrices] using ih (k + 1)

/-- What `applyPrices` writes into the `i`-th system. -/
theorem applyPrices_get? (X : List ℚ) (sc off : ℚ) (g : ℕ) :
    ∀ (sts : List EconSysState) (k i : ℕ) (sys : EconSysState),
      sts.get? i = some sys →
      (applyPrices X sc off g k sts).get? i
        = some ⟨sys.prices.set g (X.getD (k + i) 0 * sc + off)⟩ := by
  intro sts
  induction sts with
  | nil => intro k i sys h; simp at h
  | cons s rest ih =>
    intro k i sys h
    cases i with
    | zero =>
      simp only [List.get?] at h
      cases h
      rfl
    | succ i =>
      have := ih (k + 1) i sys (by simpa using h)
      simpa [applyPrices, Nat.add_assoc, Nat.add_comm 1 i] using this

/-- The fold of `econ_updateGood` over a list of goods preserves the number
of systems. -/
theorem econ_fold_length (qrsol : List ℚ → Bool × List ℚ) (dt : ℕ) :
    ∀ (L : List ℕ) (sts : List EconSysState) (ws : List String),
      ((L.foldl (fun acc g => econ_updateGood qrsol dt acc.1 acc.2 g) (sts, ws)).1).length
        = sts.length := by
  intro L
  induction L with
  | nil => intro sts ws; rfl
  | cons a L ih =>
    intro sts ws
    simpa [econ_updateGood, applyPrices_length] using
      (ih (applyPrices (qrsol (sts.map fun s => econ_calcSysI dt s a)).2 1 1 a 0 sts)
        (if (qrsol (sts.map fun s => econ_calcSysI dt s a)).1 then ws
         else ws ++ ["Failed to solve the Economy System."])).trans
      (applyPrices_length _ 1 1 a sts 0)

/-- Slots whose good is not in the processed list are untouched by the fold
of `econ_updateGood`. -/
theorem econ_fold_frame (qrsol : List ℚ → Bool × List ℚ) (dt : ℕ) :
    ∀ (L : List ℕ) (sts : List EconSysState) (ws : List String) (i j : ℕ)
      (sys : EconSysState),
      sts.get? i = some sys → j ∉ L →
      ∃ sys',
        (L.foldl (fun acc g => econ_updateGood qrsol dt acc.1 acc.2 g) (sts, ws)).1.get? i
          = some sys' ∧
        sys'.prices.get? j = sys.prices.get? j ∧
        sys'.prices.length = sys.prices.length := by
  intro L
  induction L with
  | nil => intro sts ws i j sys hi _; exact ⟨sys, hi, rfl, rfl⟩
  | cons a L ih =>
    intro sts ws i j sys hi hj
    have hja : j ≠ a := fun h => hj (h ▸ List.mem_cons_self a L)
    have hjL : j ∉ L := fun h => hj (List.mem_cons_of_mem a h)
    have hget := applyPrices_get? (qrsol (sts.map fun s => econ_calcSysI dt s a)).2 1 1 a
      sts 0 i sys hi
    obtain ⟨sys', h1, h2, h3⟩ := ih
      (applyPrices (qrsol (sts.map fun s => econ_calcSysI dt s a)).2 1 1 a 0 sts)
      (if (qrsol (sts.map fun s => econ_calcSysI dt s a)).1 then ws
       else ws ++ ["Failed to solve the Economy System."]) i j _ hget hjL
    refine ⟨sys', by simpa [econ_updateGood] using h1, ?_, ?_⟩
    · rw [h2]
      exact list_get?_set_ne sys.prices a j _ hja.symm
    · simpa using h3

/-- After the fold of `econ_updateGood` over a good list containing `j`,
slot `j` of every system holds `X'[i]*scale + offset` where `X'` is what the
solver returned on the zero intensity vector. -/
theorem econ_fold_get (qrsol : List ℚ → Bool × List ℚ) (dt n : ℕ) :
    ∀ (L : List ℕ) (sts : List EconSysState) (ws : List String) (i j : ℕ)
      (sys : EconSysState),
      sts.length = n → sts.get? i = some sys → j ∈ L → j < sys.prices.length →
      ∃ sys',
        (L.foldl (fun acc g => econ_updateGood qrsol dt acc.1 acc.2 g) (sts, ws)).1.get? i
          = some sys' ∧
        sys'.prices.get? j
          = some ((qrsol (List.replicate n 0)).2.getD i 0 * 1 + 1) := by
  intro L
  induction L with
  | nil => intro sts ws i j sys _ _ hj _; simp at hj
  | cons a L ih =>
    intro sts ws i j sys hlen hi hj hjl
    have hX : (sts.map fun s => econ_calcSysI dt s a) = List.replicate n 0 := by
      rw [map_calcSysI, hlen]
    have hstep :
        (a :: L).foldl (fun acc g => econ_updateGood qrsol dt acc.1 acc.2 g) (sts, ws)
        = L.foldl (fun acc g => econ_updateGood qrsol dt acc.1 acc.2 g)
            (applyPrices (qrsol (List.replicate n 0)).2 1 1 a 0 sts,
             if (qrsol (List.replicate n 0)).1 then ws
             else ws ++ ["Failed to solve the Economy System."]) := by
      simp [econ_updateGood, hX]
    rw [hstep]
    have hget := applyPrices_get? (qrsol (List.replicate n 0)).2 1 1 a sts 0 i sys hi
    by_cases hjL : j ∈ L
    · have hlen1 : (applyPrices (qrsol (List.replicate n 0)).2 1 1 a 0 sts).length = n := by
        rw [applyPrices_length]; exact hlen
      have hjl1 : j < (sys.prices.set a
          ((qrsol (List.replicate n 0)).2.getD (0 + i) 0 * 1 + 1)).length := by
        simpa using hjl
      exact ih (applyPrices (qrsol (List.replicate n 0)).2 1 1 a 0 sts)
        (if (qrsol (List.replicate n 0)).1 then ws
         else ws ++ ["Failed to solve the Economy System."]) i j _ hlen1 hget hjL hjl1
    · have hja : j = a := by
        rcases List.mem_cons.mp hj with h | h
        · exact h
        · exact absurd h hjL
      subst hja
      obtain ⟨sys', h1, h2, h3⟩ := econ_fold_frame qrsol dt L
        (applyPrices (qrsol (List.replicate n 0)).2 1 1 j 0 sts)
        (if (qrsol (List.replicate n 0)).1 then ws
         else ws ++ ["Failed to solve the Economy System."]) i j _ hget hjL
      refine ⟨sys', h1, ?_⟩
      rw [h2]
      simpa using list_get?_set_self sys.prices j _ hjl

/-- Warnings already raised survive the fold of `econ_updateGood`. -/
theorem econ_fold_warn_mono (qrsol : List ℚ → Bool × List ℚ) (dt : ℕ) :
    ∀ (L : List ℕ) (sts : List EconSysState) (ws : List String) (w : String),
      w ∈ ws →
      w ∈ (L.foldl (fun acc g => econ_updateGood qrsol dt acc.1 acc.2 g) (sts, ws)).2 := by
  intro L
  induction L with
  | nil => intro sts ws w h; exact h
  | cons a L ih =>
    intro sts ws w h
    have : w ∈ (if (qrsol (sts.map fun s => econ_calcSysI dt s a)).1 then ws
        else ws ++ ["Failed to solve the Economy System."]) := by
      split
      · exact h
      · exact List.mem_append_left _ h
    simpa [econ_updateGood] using ih _ _ w this

/-- A failing solve raises the warning during the fold of
`econ_updateGood`. -/
theorem econ_fold_warn (qrsol : List ℚ → Bool × List ℚ) (dt n : ℕ) :
    ∀ (L : List ℕ) (sts : List EconSysState) (ws : List String),
      sts.length = n → L ≠ [] → (qrsol (List.replicate n 0)).1 = false →
      "Failed to solve the Economy System."
        ∈ (L.foldl (fun acc g => econ_updateGood qrsol dt acc.1 acc.2 g) (sts, ws)).2 := by
  intro L
  cases L with
  | nil => intro sts ws _ h _; exact absurd rfl h
  | cons a L =>
    intro sts ws hlen _ hfail
    have hX : (sts.map fun s => econ_calcSysI dt s a) = List.replicate n 0 := by
      rw [map_calcSysI, hlen]
    have hws : (if (qrsol (sts.map fun s => econ_calcSysI dt s a)).1 then ws
        else ws ++ ["Failed to solve the Economy System."])
        = ws ++ ["Failed to solve the Economy System."] := by
      rw [hX, hfail]
      simp
    have hmem : "Failed to solve the Economy System."
        ∈ ws ++ ["Failed to solve the Economy System."] :=
      List.mem_append_right _ (List.mem_singleton.mpr rfl)
    simpa [econ_updateGood, hws] using econ_fold_warn_mono qrsol dt L _ _ _ hmem

/-- Claim C1 (amended): when the linear solve for a good fails,
`economy_update` does raise the warning, but it does not retain the previous
potentials — it unconditionally overwrites every location's slot for that
good with `X'[i]·scale + offset` (`scale = offset = 1`), where `X'` is
whatever vector the failed solve left behind. -/
theorem C1_amended (qrsol : List ℚ → Bool × List ℚ) (dt nprices : ℕ)
    (st : EconState) (i j : ℕ) (sys : EconSysState)
    (hinit : st.initialized = true) (hj : j < nprices)
    (hi : st.systems.get? i = some sys) (hjl : j < sys.prices.length) :
    (∃ sys',
      (economy_update qrsol dt nprices st).1.systems.get? i = some sys' ∧
      sys'.prices.get? j
        = some ((qrsol (List.replicate st.systems.length 0)).2.getD i 0 * 1 + 1)) ∧
    ((qrsol (List.replicate st.systems.length 0)).1 = false →
      "Failed to solve the Economy System." ∈ (economy_update qrsol dt nprices st).2) := by
  constructor
  · obtain ⟨sys', h1, h2⟩ := econ_fold_get qrsol dt st.systems.length
      (List.range nprices) st.systems [] i j sys rfl hi (List.mem_range.mpr hj) hjl
    exact ⟨sys', by simpa [economy_update, hinit] using h1, h2⟩
  · intro hfail
    have hne : List.range nprices ≠ [] := by
      simp only [ne_eq, List.range_eq_nil]
      omega
    have := econ_fold_warn qrsol dt st.systems.length (List.range nprices)
      st.systems [] rfl hne hfail
    simpa [economy_update, hinit] using this

/-- Witness for C1 at a two-system state with a failing solver. -/
theorem C1_witness :
    (∃ sys',
      (economy_update (fun _ => (false, [2, 3])) 0 1
          ⟨true, [⟨[5]⟩, ⟨[7]⟩]⟩).1.systems.get? 1 = some sys' ∧
      sys'.prices.get? 0
        = some (((fun (_ : List ℚ) => (false, [(2 : ℚ), 3]))
            (List.replicate ([(⟨[5]⟩ : EconSysState), ⟨[7]⟩]).length 0)).2.getD 1 0 * 1 + 1)) ∧
    (((fun (_ : List ℚ) => (false, [(2 : ℚ), 3]))
        (List.replicate ([(⟨[5]⟩ : EconSysState), ⟨[7]⟩]).length 0)).1 = false →
      "Failed to solve the Economy System."
        ∈ (economy_update (fun _ => (false, [2, 3])) 0 1 ⟨true, [⟨[5]⟩, ⟨[7]⟩]⟩).2) :=
  have h := C1_amended (fun _ => (false, [2, 3])) 0 1 ⟨true, [⟨[5]⟩, ⟨[7]⟩]⟩ 1 0 ⟨[7]⟩
    rfl (by decide) rfl (by decide)
  ⟨h.1, fun _ => h.2 rfl⟩

/-- Claim C1 counterexample: a failing solve (here one that reports failure
and leaves the intensity vector untouched, as `cs_qrsol` does on a
structurally invalid matrix) raises the warning yet replaces the stored
potential `5` by `0·scale + offset = 1`: the previous potential is not
retained. -/
theorem C1_counterexample :
    (economy_update (fun X => (false, X)) 0 1 ⟨true, [⟨[5]⟩]⟩).1
      = ⟨true, [⟨[1]⟩]⟩ ∧
    (economy_update (fun X => (false, X)) 0 1 ⟨true, [⟨[5]⟩]⟩).2
      = ["Failed to solve the Economy System."] ∧
    (5 : ℚ) ≠ 1 := by
  refine ⟨?_, ?_, by norm_num⟩ <;>
    norm_num [economy_update, econ_updateGood, applyPrices, econ_calcSysI,
      List.range_succ]

/-! ## C6: the admittance matrix diagonal and singularity -/

/-- `tripSum` distributes over list concatenation. -/
theorem tripSum_append (r c : ℕ) (l1 l2 : List (ℕ × ℕ × ℚ)) :
    tripSum r c (l1 ++ l2) = tripSum r c l1 + tripSum r c l2 := by
  induction l1 with
  | nil => simp [tripSum]
  | cons e l1 ih => simp [tripSum, ih]; ring

/-- The jump entries of the row-`i` block never land on the diagonal cell
`(i, i)` unless the block's system jumps to itself. -/
theorem tripSum_jumpEntries_self (E A : ℤ → ℤ → Bool) (stack : List StarSys)
    (i : ℕ) (sys : StarSys) :
    ∀ ts : List ℕ, i ∉ ts → tripSum i i (jumpEntries E A stack i sys ts) = 0 := by
  intro ts
  induction ts with
  | nil => intro _; rfl
  | cons t ts ih =>
    intro h
    have ht : t ≠ i := fun he => h (he ▸ List.mem_cons_self t ts)
    have hts : i ∉ ts := fun he => h (List.mem_cons_of_mem t he)
    cases hg : stack.get? t with
    | none =>
      simp only [jumpEntries, hg, List.nil_append]
      exact ih hts
    | some tgt =>
      simp only [jumpEntries, hg, List.cons_append, List.nil_append, tripSum]
      simp [ht, ih hts]

/-- Blocks of other rows contribute nothing to the diagonal cell `(i, i)`. -/
theorem tripSum_jumpEntries_other (E A : ℤ → ℤ → Bool) (stack : List StarSys)
    (k : ℕ) (sys : StarSys) (i : ℕ) (hk : k ≠ i) :
    ∀ ts : List ℕ, tripSum i i (jumpEntries E A stack k sys ts) = 0 := by
  intro ts
  induction ts with
  | nil => rfl
  | cons t ts ih =>
    cases hg : stack.get? t with
    | none =>
      simp only [jumpEntries, hg, List.nil_append]
      exact ih
    | some tgt =>
      simp only [jumpEntries, hg, List.cons_append, List.nil_append, tripSum]
      simp [hk, ih]

/-- The diagonal cell of a block of its own row is the block's diagonal
triplet. -/
theorem tripSum_sysEntries_self (E A : ℤ → ℤ → Bool) (stack : List StarSys)
    (i : ℕ) (sys : StarSys) (hself : i ∉ sys.jumps) :
    tripSum i i (sysEntries E A stack i sys)
      = condSum E A stack sys sys.jumps + 1 / ECON_SELF_RES := by
  rw [sysEntries, tripSum_append,
    tripSum_jumpEntries_self E A stack i sys sys.jumps hself]
  simp [tripSum]

/-- The diagonal cell `(i, i)` gets nothing from a block of another row. -/
theorem tripSum_sysEntries_other (E A : ℤ → ℤ → Bool) (stack : List StarSys)
    (k : ℕ) (sys : StarSys) (i : ℕ) (hk : k ≠ i) :
    tripSum i i (sysEntries E A stack k sys) = 0 := by
  rw [sysEntries, tripSum_append, tripSum_jumpEntries_other E A stack k sys i hk]
  simp [tripSum, hk]

/-- Blocks indexed beyond `i` contribute nothing to the diagonal cell. -/
theorem createG_diag_high (E A : ℤ → ℤ → Bool) (stack : List StarSys) (i : ℕ) :
    ∀ (l : List StarSys) (k : ℕ), i < k →
      tripSum i i (econ_createGMatrix E A stack k l) = 0 := by
  intro l
  induction l with
  | nil => intro k _; rfl
  | cons s rest ih =>
    intro k hk
    rw [econ_createGMatrix, tripSum_append,
      tripSum_sysEntries_other E A stack k s i (by omega), ih (k + 1) (by omega)]
    ring

/-- The diagonal entry of the built matrix: the row's own conductance sum
plus the self conductance. -/
theorem createG_diag (E A : ℤ → ℤ → Bool) (stack : List StarSys) (i : ℕ)
    (sys : StarSys) (hself : i ∉ sys.jumps) :
    ∀ (l : List StarSys) (k : ℕ), k ≤ i → l.get? (i - k) = some sys →
      tripSum i i (econ_createGMatrix E A stack k l)
        = condSum E A stack sys sys.jumps + 1 / ECON_SELF_RES := by
  intro l
  induction l with
  | nil => intro k _ hg; simp at hg
  | cons s rest ih =>
    intro k hk hg
    rcases Nat.eq_or_lt_of_le hk with he | hlt
    · subst he
      simp only [Nat.sub_self, List.get?] at hg
      have hs : s = sys := Option.some.inj hg
      subst hs
      rw [econ_createGMatrix, tripSum_append,
        tripSum_sysEntries_self E A stack k s hself,
        createG_diag_high E A stack k rest (k + 1) (by omega)]
      ring
    · obtain ⟨m, hm⟩ : ∃ m, i - k = m + 1 := ⟨i - k - 1, by omega⟩
      have hg' : rest.get? (i - (k + 1)) = some sys := by
        have : i - (k + 1) = m := by omega
        rw [this]
        simpa [hm] using hg
      rw [econ_createGMatrix, tripSum_append,
        tripSum_sysEntries_other E A stack k s i (by omega),
        ih (k + 1) (by omega) hg']
      ring

/-- The conductance sum of a system over any jump list is non-negative when
every system of the stack has non-negative environmental scalars. -/
theorem condSum_nonneg (E A : ℤ → ℤ → Bool) (stack : List StarSys) (sys : StarSys)
    (henv : ∀ s ∈ stack, 0 ≤ s.nebu_density ∧ 0 ≤ s.nebu_volatility)
    (hsd : 0 ≤ sys.nebu_density) (hsv : 0 ≤ sys.nebu_volatility) :
    ∀ ts : List ℕ, 0 ≤ condSum E A stack sys ts := by
  intro ts
  induction ts with
  | nil => exact le_refl 0
  | cons t ts ih =>
    have hhead : (0 : ℚ) ≤
        (match stack.get? t with
         | some tgt => 1 / econ_calcJumpR E A sys tgt
         | none => 0) := by
      cases hg : stack.get? t with
      | none => exact le_refl 0
      | some tgt =>
        have htgt := henv tgt (List.get?_mem hg)
        have := econ_calcJumpR_pos E A sys tgt hsd htgt.1 hsv htgt.2
        have := le_of_lt (one_div_pos.mpr this)
        simpa using this
    simpa [condSum] using add_nonneg hhead ih

/-- Claim C6 (amended): the diagonal entry of row `i` equals the sum of the
conductances `1/R` over system `i`'s own outgoing jumps plus the fixed self
conductance `1/ECON_SELF_RES`; it is therefore at least `1/ECON_SELF_RES`
and strictly positive, and exactly `1/ECON_SELF_RES` for an isolated system
(no jumps).  (It does not equal the full off-diagonal row sum plus
`1/ECON_SELF_RES`: mirrored jumps enter each off-diagonal cell twice — see
the counterexample — and the matrix can even be singular.) -/
theorem C6_amended (E A : ℤ → ℤ → Bool) (stack : List StarSys) (i : ℕ)
    (sys : StarSys) (hi : stack.get? i = some sys) (hself : i ∉ sys.jumps)
    (henv : ∀ s ∈ stack, 0 ≤ s.nebu_density ∧ 0 ≤ s.nebu_volatility) :
    econ_G E A stack i i = condSum E A stack sys sys.jumps + 1 / ECON_SELF_RES ∧
    1 / ECON_SELF_RES ≤ econ_G E A stack i i ∧
    0 < econ_G E A stack i i ∧
    (sys.jumps = [] → econ_G E A stack i i = 1 / ECON_SELF_RES) := by
  have hmain : econ_G E A stack i i
      = condSum E A stack sys sys.jumps + 1 / ECON_SELF_RES := by
    rw [econ_G]
    exact createG_diag E A stack i sys hself stack 0 (Nat.zero_le i) (by simpa using hi)
  have hsysenv := henv sys (List.get?_mem hi)
  have hcond := condSum_nonneg E A stack sys henv hsysenv.1 hsysenv.2 sys.jumps
  have hres : (0 : ℚ) < 1 / ECON_SELF_RES := by norm_num [ECON_SELF_RES]
  refine ⟨hmain, by rw [hmain]; linarith, by rw [hmain]; linarith, ?_⟩
  intro hempty
  rw [hmain, hempty]
  simp [condSum]

/-- Witness for C6 at a two-system stack with one mirrored jump. -/
theorem C6_witness :
    econ_G (fun _ _ => false) (fun _ _ => false)
        [⟨0, 0, -1, [1]⟩, ⟨0, 0, -1, [0]⟩] 0 0
      = condSum (fun _ _ => false) (fun _ _ => false)
          [⟨0, 0, -1, [1]⟩, ⟨0, 0, -1, [0]⟩] ⟨0, 0, -1, [1]⟩ [1] + 1 / ECON_SELF_RES ∧
    1 / ECON_SELF_RES ≤ econ_G (fun _ _ => false) (fun _ _ => false)
        [⟨0, 0, -1, [1]⟩, ⟨0, 0, -1, [0]⟩] 0 0 ∧
    0 < econ_G (fun _ _ => false) (fun _ _ => false)
        [⟨0, 0, -1, [1]⟩, ⟨0, 0, -1, [0]⟩] 0 0 ∧
    (([1] : List ℕ) = [] → econ_G (fun _ _ => false) (fun _ _ => false)
        [⟨0, 0, -1, [1]⟩, ⟨0, 0, -1, [0]⟩] 0 0 = 1 / ECON_SELF_RES) :=
  C6_amended (fun _ _ => false) (fun _ _ => false)
    [⟨0, 0, -1, [1]⟩, ⟨0, 0, -1, [0]⟩] 0 ⟨0, 0, -1, [1]⟩ rfl (by decide)
    (by intro s hs; fin_cases hs <;> exact ⟨le_refl 0, le_refl 0⟩)

/-- `rowSum` distributes over list concatenation. -/
theorem rowSum_append (r : ℕ) (l1 l2 : List (ℕ × ℕ × ℚ)) :
    rowSum r (l1 ++ l2) = rowSum r l1 + rowSum r l2 := by
  induction l1 with
  | nil => simp [rowSum]
  | cons e l1 ih => simp [rowSum, ih]; ring

/-- Row mass of a jump block: its own outgoing conductances (negated) when
the block is the row's own, plus the conductance it sends into the row. -/
theorem rowSum_jumpEntries (E A : ℤ → ℤ → Bool) (stack : List StarSys)
    (k : ℕ) (sys : StarSys) (r : ℕ) :
    ∀ ts : List ℕ, rowSum r (jumpEntries E A stack k sys ts)
      = (if k = r then -(condSum E A stack sys ts) else 0)
        - hitSum E A stack sys r ts := by
  intro ts
  induction ts with
  | nil => simp [jumpEntries, rowSum, condSum, hitSum]
  | cons t ts ih =>
    cases hg : stack.get? t with
    | none =>
      simp only [jumpEntries, hg, condSum, hitSum, List.nil_append, ih]
      split_ifs <;> simp
    | some tgt =>
      simp only [jumpEntries, hg, condSum, hitSum, List.cons_append, List.nil_append,
        rowSum, ih]
      by_cases hk : k = r <;> by_cases ht : t = r <;> simp [hk, ht] <;> ring

/-- Row mass of a full system block. -/
theorem rowSum_sysEntries (E A : ℤ → ℤ → Bool) (stack : List StarSys)
    (k : ℕ) (sys : StarSys) (r : ℕ) :
    rowSum r (sysEntries E A stack k sys)
      = (if k = r then 1 / ECON_SELF_RES else 0)
        - hitSum E A stack sys r sys.jumps := by
  rw [sysEntries, rowSum_append, rowSum_jumpEntries]
  by_cases hk : k = r <;> simp [rowSum, hk] <;> ring

/-- Row mass of the blocks beyond row `r`. -/
theorem createG_rowSum_high (E A : ℤ → ℤ → Bool) (stack : List StarSys) (r : ℕ) :
    ∀ (l : List StarSys) (k : ℕ), r < k →
      rowSum r (econ_createGMatrix E A stack k l) = -(listHit E A stack r l) := by
  intro l
  induction l with
  | nil => intro k _; simp [econ_createGMatrix, rowSum, listHit]
  | cons s rest ih =>
    intro k hk
    rw [econ_createGMatrix, rowSum_append, rowSum_sysEntries, ih (k + 1) (by omega)]
    simp only [listHit]
    rw [if_neg (by omega)]
    ring

/-- Total row mass of the built matrix: the self conductance minus the
conductance all systems send into the row.  (The row's own outgoing
conductances cancel against its diagonal accumulation.) -/
theorem createG_rowSum (E A : ℤ → ℤ → Bool) (stack : List StarSys) (r : ℕ) :
    ∀ (l : List StarSys) (k : ℕ), k ≤ r → r < k + l.length →
      rowSum r (econ_createGMatrix E A stack k l)
        = 1 / ECON_SELF_RES - listHit E A stack r l := by
  intro l
  induction l with
  | nil => intro k h1 h2; simp at h2; omega
  | cons s rest ih =>
    intro k h1 h2
    rcases Nat.eq_or_lt_of_le h1 with he | hlt
    · subst he
      rw [econ_createGMatrix, rowSum_append, rowSum_sysEntries, if_pos rfl,
        createG_rowSum_high E A stack k rest (k + 1) (by omega)]
      simp only [listHit]
      ring
    · rw [econ_createGMatrix, rowSum_append, rowSum_sysEntries, if_neg (by omega),
        ih (k + 1) (by omega) (by simp at h2; omega)]
      simp only [listHit]
      ring

/-- Second coordinates of the jump entries stay below `m` when all jump
targets and the block index do. -/
theorem jumpEntries_coord (E A : ℤ → ℤ → Bool) (stack : List StarSys)
    (k : ℕ) (sys : StarSys) (m : ℕ) (hkm : k < m) :
    ∀ ts : List ℕ, (∀ t ∈ ts, t < m) →
      ∀ e ∈ jumpEntries E A stack k sys ts, e.2.1 < m := by
  intro ts
  induction ts with
  | nil => intro _ e he; simp [jumpEntries] at he
  | cons t ts ih =>
    intro hts e he
    have ht : t < m := hts t (List.mem_cons_self t ts)
    have hts' : ∀ u ∈ ts, u < m := fun u hu => hts u (List.mem_cons_of_mem t hu)
    cases hg : stack.get? t with
    | none =>
      rw [jumpEntries, hg] at he
      exact ih hts' e (by simpa using he)
    | some tgt =>
      rw [jumpEntries, hg] at he
      simp only [List.cons_append, List.mem_cons] at he
      rcases he with he | he | he
      · subst he; exact ht
      · subst he; exact hkm
      · exact ih hts' e (by simpa using he)

/-- Second coordinates of the triplet entries of the built matrix stay
below `m` when all jump targets do and the stack fits. -/
theorem createG_coord (E A : ℤ → ℤ → Bool) (stack : List StarSys) (m : ℕ) :
    ∀ (l : List StarSys) (k : ℕ),
      (∀ sys ∈ l, ∀ t ∈ sys.jumps, t < m) → k + l.length ≤ m →
      ∀ e ∈ econ_createGMatrix E A stack k l, e.2.1 < m := by
  intro l
  induction l with
  | nil => intro k _ _ e he; simp [econ_createGMatrix] at he
  | cons s rest ih =>
    intro k hjumps hlen e he
    have hkm : k < m := by simp at hlen; omega
    rw [econ_createGMatrix] at he
    rcases List.mem_append.mp he with he | he
    · rw [sysEntries] at he
      rcases List.mem_append.mp he with he | he
      · exact jumpEntries_coord E A stack k s m hkm s.jumps
          (hjumps s (List.mem_cons_self s rest)) e he
      · have he' : e = (k, k, condSum E A stack s s.jumps + 1 / ECON_SELF_RES) := by
          simpa using he
        rw [he']
        exact hkm
    · exact ih (k + 1) (fun sys hs => hjumps sys (List.mem_cons_of_mem s hs))
        (by simp at hlen ⊢; omega) e he

/-- Summing a triplet matrix cell over a full row range yields the row
mass. -/
theorem sum_range_tripSum (r m : ℕ) :
    ∀ T : List (ℕ × ℕ × ℚ), (∀ e ∈ T, e.2.1 < m) →
      ∑ c in Finset.range m, tripSum r c T = rowSum r T := by
  intro T
  induction T with
  | nil => intro _; simp [tripSum, rowSum]
  | cons e T ih =>
    intro hT
    have he : e.2.1 < m := hT e (List.mem_cons_self e T)
    have hT' : ∀ u ∈ T, u.2.1 < m := fun u hu => hT u (List.mem_cons_of_mem e hu)
    simp only [tripSum, rowSum, Finset.sum_add_distrib, ih hT']
    congr 1
    by_cases hr : e.1 = r
    · simp only [hr, true_and, if_pos]
      rw [Finset.sum_ite_eq (Finset.range m) e.2.1 (fun _ => e.2.2)]
      simp [Finset.mem_range.mpr he]
    · simp [hr]

set_option maxHeartbeats 3200000 in
/-- The complete 11-system default graph sends conductance mass `1/3` into
every row: ten incoming jumps of resistance 30 each. -/
theorem listHit_stack11 (r : Fin 11) :
    listHit (fun _ _ => false) (fun _ _ => false) stack11 r.1 stack11 = 1/3 := by
  fin_cases r <;>
    norm_num [listHit, hitSum, stack11, econ_calcJumpR, ECON_BASE_RES,
      ECON_FACTION_MOD, ECON_SELF_RES, List.get?]

/-- Every row of `G11` sums to zero: the all-ones vector is in its kernel. -/
theorem G11_mulVec_ones : G11.mulVec (fun _ => 1) = 0 := by
  funext r
  have hcoord : ∀ e ∈ econ_createGMatrix (fun _ _ => false) (fun _ _ => false)
      stack11 0 stack11, e.2.1 < 11 := by
    apply createG_coord (fun _ _ => false) (fun _ _ => false) stack11 11 stack11 0
    · decide
    · decide
  have hsum : ∑ c in Finset.range 11,
      econ_G (fun _ _ => false) (fun _ _ => false) stack11 r.1 c
        = 1 / ECON_SELF_RES - listHit (fun _ _ => false) (fun _ _ => false)
            stack11 r.1 stack11 := by
    rw [show (∑ c in Finset.range 11,
        econ_G (fun _ _ => false) (fun _ _ => false) stack11 r.1 c)
      = rowSum r.1 (econ_createGMatrix (fun _ _ => false) (fun _ _ => false)
          stack11 0 stack11) from sum_range_tripSum r.1 11 _ hcoord]
    exact createG_rowSum (fun _ _ => false) (fun _ _ => false) stack11 r.1 stack11 0
      (Nat.zero_le _) (by simpa [stack11] using r.2)
  have hzero : ∑ c in Finset.range 11,
      econ_G (fun _ _ => false) (fun _ _ => false) stack11 r.1 c = 0 := by
    rw [hsum, listHit_stack11 r]
    norm_num [ECON_SELF_RES]
  show ∑ c : Fin 11, G11 r c * (1 : ℚ) = 0
  simp only [mul_one, G11, Matrix.of_apply]
  rw [Fin.sum_univ_eq_sum_range (fun c =>
    econ_G (fun _ _ => false) (fun _ _ => false) stack11 r.1 c) 11]
  exact hzero

/-- Claim C6 counterexample: (a) in the two-system mirrored-jump stack the
diagonal entry `1/30 + 1/3` differs from the absolute off-diagonal row sum
plus the self conductance, `|-2/30| + 1/3` — the mirrored jump enters the
off-diagonal cell twice; (b) the matrix of the complete default graph on 11
systems is singular, refuting "never singular". -/
theorem C6_counterexample :
    econ_G (fun _ _ => false) (fun _ _ => false)
        [⟨0, 0, -1, [1]⟩, ⟨0, 0, -1, [0]⟩] 0 0
      ≠ |econ_G (fun _ _ => false) (fun _ _ => false)
          [⟨0, 0, -1, [1]⟩, ⟨0, 0, -1, [0]⟩] 0 1| + 1 / ECON_SELF_RES ∧
    G11.det = 0 := by
  constructor
  · have h00 : econ_G (fun _ _ => false) (fun _ _ => false)
        [⟨0, 0, -1, [1]⟩, ⟨0, 0, -1, [0]⟩] 0 0 = 1/30 + 1/3 := by
      norm_num [econ_G, econ_createGMatrix, sysEntries, jumpEntries, condSum,
        tripSum, econ_calcJumpR, ECON_BASE_RES, ECON_SELF_RES, ECON_FACTION_MOD,
        List.get?]
    have h01 : econ_G (fun _ _ => false) (fun _ _ => false)
        [⟨0, 0, -1, [1]⟩, ⟨0, 0, -1, [0]⟩] 0 1 = -(2/30) := by
      norm_num [econ_G, econ_createGMatrix, sysEntries, jumpEntries, condSum,
        tripSum, econ_calcJumpR, ECON_BASE_RES, ECON_SELF_RES, ECON_FACTION_MOD,
        List.get?]
    rw [h00, h01, abs_of_nonpos (by norm_num)]
    norm_num [ECON_SELF_RES]
  · apply Matrix.exists_mulVec_eq_zero_iff.mp
    refine ⟨fun _ => 1, ?_, G11_mulVec_ones⟩
    intro h
    have := congrFun h 0
    norm_num at this

/-! ## C8: the persistence round-trip -/

/-- Every saved commodity entry is named after one of the planet's
commodities. -/
theorem saveCom_names : ∀ (nms : List String) (cps : List CommodityPrice),
    ∀ e ∈ saveCom nms cps, e.name ∈ nms := by
  intro nms
  induction nms with
  | nil => intro cps e he; cases cps <;> simp [saveCom] at he
  | cons nm nms ih =>
    intro cps e he
    cases cps with
    | nil => simp [saveCom] at he
    | cons cp cps =>
      rw [saveCom] at he
      rcases List.mem_append.mp he with he | he
      · rcases ite_eq_or_eq (0 < cp.cnt)
          [(⟨nm, cp.sum, cp.sum2, cp.cnt, cp.updateTime⟩ : ComSave)] [] with h | h <;>
          rw [h] at he
        · simp at he
          rw [he]
          exact List.mem_cons_self nm nms
        · simp at he
      · exact List.mem_cons_of_mem nm (ih cps e he)

/-- Every saved planet element is named after one of the world's planets. -/
theorem sysSave_names : ∀ (w : List PlanetEcon),
    ∀ ps ∈ economy_sysSave w, ps.name ∈ w.map PlanetEcon.name := by
  intro w
  induction w with
  | nil => intro ps hps; simp [economy_sysSave] at hps
  | cons p w ih =>
    intro ps hps
    rw [economy_sysSave] at hps
    rcases List.mem_append.mp hps with h | h
    · rcases ite_eq_or_eq (saveCom p.commodities p.commodityPrice).isEmpty
        ([] : List PlanetSave)
        [⟨p.name, saveCom p.commodities p.commodityPrice⟩] with he | he <;>
        rw [he] at h
      · simp at h
      · simp at h
        rw [h]
        exact List.mem_cons_self _ _
    · exact List.mem_cons_of_mem _ (ih ps h)

/-- A commodity entry naming none of the leading commodities passes over
the head field. -/
theorem foldCom_skip (nm : String) (nms : List String) :
    ∀ (es : List ComSave) (cp : CommodityPrice) (cps : List CommodityPrice),
      (∀ e ∈ es, e.name ≠ nm) →
      es.foldl (fun a e => applyComLists e (nm :: nms) a) (cp :: cps)
        = cp :: es.foldl (fun a e => applyComLists e nms a) cps := by
  intro es
  induction es with
  | nil => intro cp cps _; rfl
  | cons e es ih =>
    intro cp cps hne
    have h1 : e.name ≠ nm := hne e (List.mem_cons_self e es)
    have h2 : ∀ u ∈ es, u.name ≠ nm := fun u hu => hne u (List.mem_cons_of_mem e hu)
    have hstep : applyComLists e (nm :: nms) (cp :: cps)
        = cp :: applyComLists e nms cps := by
      rw [applyComLists, if_neg (fun h => h1 h.symm)]
    simp only [List.foldl_cons, hstep]
    exact ih (cp) (applyComLists e nms cps) h2

/-- Restoring the cleared field from its own saved entry recovers the
original field. -/
theorem restore_clear (nm : String) (cp : CommodityPrice) :
    restoreCP ⟨nm, cp.sum, cp.sum2, cp.cnt, cp.updateTime⟩ (clearCP cp) = cp :=
  rfl

/-- A planet's own saved entries, applied to its cleared fields, restore
every observed field and leave the rest cleared. -/
theorem foldCom_self : ∀ (nms : List String) (cps : List CommodityPrice),
    nms.Nodup → nms.length = cps.length →
    (saveCom nms cps).foldl (fun a e => applyComLists e nms a) (cps.map clearCP)
      = cps.map restoreOrClear := by
  intro nms
  induction nms with
  | nil =>
    intro cps _ hlen
    cases cps with
    | nil => rfl
    | cons cp cps => simp at hlen
  | cons nm nms ih =>
    intro cps hnodup hlen
    cases cps with
    | nil => simp at hlen
    | cons cp cps =>
      have hnm : nm ∉ nms := (List.nodup_cons.mp hnodup).1
      have hnodup' : nms.Nodup := (List.nodup_cons.mp hnodup).2
      have hlen' : nms.length = cps.length := by simpa using hlen
      have hrestnames : ∀ e ∈ saveCom nms cps, e.name ≠ nm := by
        intro e he heq
        exact hnm (heq ▸ saveCom_names nms cps e he)
      by_cases hcnt : 0 < cp.cnt
      · have hsave : saveCom (nm :: nms) (cp :: cps)
            = ⟨nm, cp.sum, cp.sum2, cp.cnt, cp.updateTime⟩ :: saveCom nms cps := by
          rw [saveCom, if_pos hcnt]
          rfl
        have hhead : applyComLists ⟨nm, cp.sum, cp.sum2, cp.cnt, cp.updateTime⟩
            (nm :: nms) (clearCP cp :: cps.map clearCP)
            = cp :: cps.map clearCP := by
          rw [applyComLists, if_pos rfl, restore_clear]
        have hro : restoreOrClear cp = cp := by rw [restoreOrClear, if_pos hcnt]
        calc (saveCom (nm :: nms) (cp :: cps)).foldl
              (fun a e => applyComLists e (nm :: nms) a)
              ((cp :: cps).map clearCP)
            = (saveCom nms cps).foldl (fun a e => applyComLists e (nm :: nms) a)
                (cp :: cps.map clearCP) := by
              rw [hsave]
              simp only [List.map_cons, List.foldl_cons, hhead]
          _ = cp :: (saveCom nms cps).foldl (fun a e => applyComLists e nms a)
                (cps.map clearCP) := foldCom_skip nm nms _ cp _ hrestnames
          _ = cp :: cps.map restoreOrClear := by rw [ih cps hnodup' hlen']
          _ = (cp :: cps).map restoreOrClear := by rw [List.map_cons, hro]
      · have hsave : saveCom (nm :: nms) (cp :: cps) = saveCom nms cps := by
          rw [saveCom, if_neg hcnt]
          rfl
        have hro : restoreOrClear cp = clearCP cp := by rw [restoreOrClear, if_neg hcnt]
        calc (saveCom (nm :: nms) (cp :: cps)).foldl
              (fun a e => applyComLists e (nm :: nms) a)
              ((cp :: cps).map clearCP)
            = (saveCom nms cps).foldl (fun a e => applyComLists e (nm :: nms) a)
                (clearCP cp :: cps.map clearCP) := by rw [hsave, List.map_cons]
          _ = clearCP cp :: (saveCom nms cps).foldl (fun a e => applyComLists e nms a)
                (cps.map clearCP) := foldCom_skip nm nms _ (clearCP cp) _ hrestnames
          _ = clearCP cp :: cps.map restoreOrClear := by rw [ih cps hnodup' hlen']
          _ = (cp :: cps).map restoreOrClear := by rw [List.map_cons, hro]

/-- A planet element naming a different planet passes over the head
planet. -/
theorem foldPlanet_skip : ∀ (file : List PlanetSave) (p : PlanetEcon)
    (w : List PlanetEcon), (∀ ps ∈ file, ps.name ≠ p.name) →
    file.foldl (fun acc ps => applyPlanetSave ps acc) (p :: w)
      = p :: file.foldl (fun acc ps => applyPlanetSave ps acc) w := by
  intro file
  induction file with
  | nil => intro p w _; rfl
  | cons ps file ih =>
    intro p w hne
    have h1 : ps.name ≠ p.name := hne ps (List.mem_cons_self ps file)
    have h2 : ∀ u ∈ file, u.name ≠ p.name := fun u hu => hne u (List.mem_cons_of_mem ps hu)
    have hstep : applyPlanetSave ps (p :: w) = p :: applyPlanetSave ps w := by
      rw [applyPlanetSave, if_neg (fun h => h1 h.symm)]
    simp only [List.foldl_cons, hstep]
    exact ih p (applyPlanetSave ps w) h2

/-- If no field of a planet was observed, nothing of it is saved and every
field comes back cleared. -/
theorem saveCom_nil_cnt : ∀ (nms : List String) (cps : List CommodityPrice),
    saveCom nms cps = [] → nms.length = cps.length →
    ∀ cp ∈ cps, ¬ 0 < cp.cnt := by
  intro nms
  induction nms with
  | nil =>
    intro cps _ hlen cp hcp
    cases cps with
    | nil => simp at hcp
    | cons c cs => simp at hlen
  | cons nm nms ih =>
    intro cps hnil hlen cp hcp
    cases cps with
    | nil => simp at hcp
    | cons c cs =>
      rw [saveCom] at hnil
      by_cases hcnt : 0 < c.cnt
      · rw [if_pos hcnt] at hnil
        simp at hnil
      · rw [if_neg hcnt] at hnil
        simp only [List.nil_append] at hnil
        rcases List.mem_cons.mp hcp with h | h
        · rw [h]; exact hcnt
        · exact ih cs hnil (by simpa using hlen) cp h

/-- Claim C8 (amended): a save / reset / reload round-trip restores every
field that had a positive observation count exactly (hence its mean and
standard deviation), and returns every never-observed field to the cleared
state — whose average query then yields mean 0, std 0, and the generic
return code 0 rather than the distinct `-1` "not known" code.  Planet names
must be world-unique and each planet's commodity names unique (as
`planet_get` / the name searches assume). -/
theorem C8_amended (w : List PlanetEcon)
    (hnames : (w.map PlanetEcon.name).Nodup)
    (hper : ∀ p ∈ w, p.commodities.Nodup ∧
      p.commodities.length = p.commodityPrice.length) :
    economy_sysLoad (economy_sysSave w) w
      = w.map fun p =>
          { p with commodityPrice := p.commodityPrice.map restoreOrClear } := by
  induction w with
  | nil => rfl
  | cons p w ih =>
    have hcons : (p.name :: w.map PlanetEcon.name).Nodup := by
      simpa using hnames
    have hpname : p.name ∉ w.map PlanetEcon.name := (List.nodup_cons.mp hcons).1
    have hnames' : (w.map PlanetEcon.name).Nodup := (List.nodup_cons.mp hcons).2
    have hp := hper p (List.mem_cons_self p w)
    have hper' : ∀ q ∈ w, q.commodities.Nodup ∧
        q.commodities.length = q.commodityPrice.length :=
      fun q hq => hper q (List.mem_cons_of_mem p hq)
    have hskipnames : ∀ ps ∈ economy_sysSave w, ps.name ≠ p.name := by
      intro ps hps heq
      exact hpname (heq ▸ sysSave_names w ps hps)
    have hclear : economy_clearKnown (p :: w)
        = { p with commodityPrice := p.commodityPrice.map clearCP }
          :: economy_clearKnown w := by
      simp [economy_clearKnown, planetClear]
    have hihfold : (economy_sysSave w).foldl (fun acc ps => applyPlanetSave ps acc)
        (economy_clearKnown w)
        = w.map (fun q =>
            { q with commodityPrice := q.commodityPrice.map restoreOrClear }) :=
      ih hnames' hper'
    rw [economy_sysLoad, hclear, economy_sysSave]
    by_cases hes : (saveCom p.commodities p.commodityPrice).isEmpty
    · have hnil : saveCom p.commodities p.commodityPrice = [] :=
        List.isEmpty_iff.mp hes
      have hmapeq : p.commodityPrice.map clearCP
          = p.commodityPrice.map restoreOrClear := by
        apply List.map_congr_left
        intro cp hcp
        rw [restoreOrClear, if_neg (saveCom_nil_cnt p.commodities p.commodityPrice
          hnil hp.2 cp hcp)]
      rw [if_pos hes, List.nil_append,
        foldPlanet_skip (economy_sysSave w)
          (⟨p.name, p.commodities, p.commodityPrice.map clearCP⟩ : PlanetEcon)
          (economy_clearKnown w) hskipnames,
        hihfold, hmapeq, List.map_cons]
    · rw [if_neg hes, List.cons_append, List.nil_append, List.foldl_cons]
      have hhead : applyPlanetSave ⟨p.name, saveCom p.commodities p.commodityPrice⟩
          ({ p with commodityPrice := p.commodityPrice.map clearCP }
            :: economy_clearKnown w)
          = { p with commodityPrice := p.commodityPrice.map restoreOrClear }
            :: economy_clearKnown w := by
        rw [applyPlanetSave, if_pos rfl]
        congr 1
        have := foldCom_self p.commodities p.commodityPrice hp.1 hp.2
        simpa using this
      rw [hhead,
        foldPlanet_skip (economy_sysSave w)
          (⟨p.name, p.commodities, p.commodityPrice.map restoreOrClear⟩ : PlanetEcon)
          (economy_clearKnown w) hskipnames,
        hihfold, List.map_cons]

/-- Witness for C8 on a concrete two-planet world with an observed, an
unobserved and another observed field. -/
theorem C8_witness :
    economy_sysLoad
      (economy_sysSave
        [⟨"P", ["Food", "Ore"], [⟨100, 1, 0, 300, 1000, 20, 250, 2, 9⟩,
          ⟨50, 1, 0, 300, 1000, 0, 0, 0, 0⟩]⟩,
         ⟨"Q", ["Food"], [⟨80, 1, 0, 300, 1000, 77, 5929, 1, 4⟩]⟩])
      [⟨"P", ["Food", "Ore"], [⟨100, 1, 0, 300, 1000, 20, 250, 2, 9⟩,
         ⟨50, 1, 0, 300, 1000, 0, 0, 0, 0⟩]⟩,
       ⟨"Q", ["Food"], [⟨80, 1, 0, 300, 1000, 77, 5929, 1, 4⟩]⟩]
      = ([⟨"P", ["Food", "Ore"], [⟨100, 1, 0, 300, 1000, 20, 250, 2, 9⟩,
          ⟨50, 1, 0, 300, 1000, 0, 0, 0, 0⟩]⟩,
         ⟨"Q", ["Food"], [⟨80, 1, 0, 300, 1000, 77, 5929, 1, 4⟩]⟩] :
          List PlanetEcon).map
          (fun p => { p with
            commodityPrice := p.commodityPrice.map restoreOrClear }) :=
  C8_amended
    [⟨"P", ["Food", "Ore"], [⟨100, 1, 0, 300, 1000, 20, 250, 2, 9⟩,
      ⟨50, 1, 0, 300, 1000, 0, 0, 0, 0⟩]⟩,
     ⟨"Q", ["Food"], [⟨80, 1, 0, 300, 1000, 77, 5929, 1, 4⟩]⟩]
    (by decide) (by intro p hp; fin_cases hp <;> exact ⟨by decide, by decide⟩)

/-- Claim C8 counterexample: a field with observation count zero is indeed
absent from the save (the whole planet element is omitted) and comes back
cleared, but it does not "read back as not found": the average query on the
reloaded world answers with return code 0 — the generic success code — while
the distinct "not known" code of the query is `-1`. -/
theorem C8_counterexample :
    economy_sysLoad (economy_sysSave [⟨"P", ["Food"], [⟨100, 1, 0, 300, 1000, 0, 0, 0, 7⟩]⟩])
        [⟨"P", ["Food"], [⟨100, 1, 0, 300, 1000, 0, 0, 0, 7⟩]⟩]
      = [⟨"P", ["Food"], [⟨100, 1, 0, 300, 1000, 0, 0, 0, 0⟩]⟩] ∧
    (economy_getAveragePlanetPrice [⟨"Food", 10, 200, 0, [], [], 0⟩] [0]
        ⟨"P", ["Food"], [⟨100, 1, 0, 300, 1000, 0, 0, 0, 0⟩]⟩ 0).ret = 0 ∧
    (0 : ℤ) ≠ -1 := by
  refine ⟨?_, ?_, by decide⟩
  · simp [economy_sysLoad, economy_sysSave, saveCom, economy_clearKnown,
      planetClear, clearCP]
  · simp [economy_getAveragePlanetPrice, planetFindCP]

end Econ
